import Mathlib

/-!
Shallow embedding of the SCQL broker core:
pkg/broker/executor/query_runner.go (QueryRunner: CreateChecksum,
ExchangeJobInfo, prepareData, Prepare, CreateExecutor, Execute fragments)
and the application GC loops (StorageGc, SessionGc).

Machine integers are modelled as Int, byte strings as String, protobuf
messages as structures with Option fields where the Go message field is a
nilable pointer.  A SHA-256 hasher is modelled by the list of strings
written to it: the hash is a deterministic function of that stream, so
equal streams give byte-identical fingerprints.
-/

deriving instance DecidableEq for Except

namespace Scql

/-- A database table identifier as produced by planner core NewDbTable:
a database (project) name plus a table name. -/
structure DbTable where
  dbName : String
  tableName : String
deriving DecidableEq

/-- Canonical string form of a DbTable, the Go String() method:
dbName dot tableName. -/
def DbTable.str (t : DbTable) : String := t.dbName ++ "." ++ t.tableName

/-- A column of a table schema as consumed by the checksum loop:
its name and the type descriptor written into the schema hash. -/
structure ColumnInfo where
  name : String
  typeDesc : String
deriving DecidableEq

/-- One CCL entry (pb.SecurityConfig_ColumnControl): database, table,
column, destination party and visibility (the String() of the enum). -/
structure ColumnControl where
  databaseName : String
  tableName : String
  columnName : String
  partyCode : String
  visibility : String
deriving DecidableEq

/-- Lexicographic comparison of character lists, the order Go uses on
its strings (byte-wise less-or-equal). -/
def strLeList : List Char → List Char → Bool
  | [], _ => true
  | _ :: _, [] => false
  | a :: as, b :: bs => if a < b then true else if b < a then false else strLeList as bs

/-- The Go string comparison s1 less-or-equal s2, on the characters of
the two strings. -/
def goStrLe (a b : String) : Bool := strLeList a.data b.data

theorem strLeList_refl : ∀ l : List Char, strLeList l l = true
  | [] => rfl
  | a :: as => by simp [strLeList, lt_irrefl, strLeList_refl as]

theorem strLeList_total : ∀ l₁ l₂ : List Char,
    strLeList l₁ l₂ = true ∨ strLeList l₂ l₁ = true
  | [], _ => Or.inl rfl
  | _ :: _, [] => Or.inr rfl
  | a :: as, b :: bs => by
    rcases lt_trichotomy a b with h | h | h
    · left
      simp [strLeList, h]
    · subst h
      simp only [strLeList, lt_irrefl, if_false]
      exact strLeList_total as bs
    · right
      simp [strLeList, h]

theorem strLeList_trans : ∀ l₁ l₂ l₃ : List Char, strLeList l₁ l₂ = true →
    strLeList l₂ l₃ = true → strLeList l₁ l₃ = true
  | [], _, _ => fun _ _ => rfl
  | a :: as, [], _ => fun h₁ _ => absurd h₁ (by simp [strLeList])
  | a :: as, b :: bs, [] => fun _ h₂ => absurd h₂ (by simp [strLeList])
  | a :: as, b :: bs, c :: cs => by
    intro h₁ h₂
    by_cases hab : a < b
    · by_cases hbc : b < c
      · simp [strLeList, lt_trans hab hbc]
      · by_cases hcb : c < b
        · simp only [strLeList, if_neg hbc, if_pos hcb] at h₂
          exact absurd h₂ (by simp)
        · have hbceq : b = c := le_antisymm (le_of_not_lt hcb) (le_of_not_lt hbc)
          subst hbceq
          simp [strLeList, hab]
    · by_cases hba : b < a
      · simp only [strLeList, if_neg hab, if_pos hba] at h₁
        exact absurd h₁ (by simp)
      · have habeq : a = b := le_antisymm (le_of_not_lt hba) (le_of_not_lt hab)
        subst habeq
        simp only [strLeList, if_neg hab, if_neg hba] at h₁
        by_cases hac : a < c
        · simp [strLeList, hac]
        · by_cases hca : c < a
          · simp only [strLeList, if_neg hac, if_pos hca] at h₂
            exact absurd h₂ (by simp)
          · simp only [strLeList, if_neg hac, if_neg hca] at h₂
            simp only [strLeList, if_neg hac, if_neg hca]
            exact strLeList_trans as bs cs h₁ h₂

theorem strLeList_antisymm : ∀ l₁ l₂ : List Char, strLeList l₁ l₂ = true →
    strLeList l₂ l₁ = true → l₁ = l₂
  | [], [] => fun _ _ => rfl
  | [], b :: bs => fun _ h₂ => absurd h₂ (by simp [strLeList])
  | a :: as, [] => fun h₁ _ => absurd h₁ (by simp [strLeList])
  | a :: as, b :: bs => fun h₁ h₂ => by
    by_cases hab : a < b
    · simp only [strLeList, if_neg (lt_asymm hab), if_pos hab] at h₂
      exact absurd h₂ (by simp)
    · by_cases hba : b < a
      · simp only [strLeList, if_neg hab, if_pos hba] at h₁
        exact absurd h₁ (by simp)
      · have habeq : a = b := le_antisymm (le_of_not_lt hba) (le_of_not_lt hab)
        subst habeq
        simp only [strLeList, if_neg hab, if_neg hba] at h₁ h₂
        rw [strLeList_antisymm as bs h₁ h₂]

theorem goStrLe_total (a b : String) : goStrLe a b = true ∨ goStrLe b a = true :=
  strLeList_total a.data b.data

theorem goStrLe_trans {a b c : String} (h₁ : goStrLe a b = true)
    (h₂ : goStrLe b c = true) : goStrLe a c = true :=
  strLeList_trans a.data b.data c.data h₁ h₂

theorem goStrLe_antisymm {a b : String} (h₁ : goStrLe a b = true)
    (h₂ : goStrLe b a = true) : a = b := by
  have hd := strLeList_antisymm a.data b.data h₁ h₂
  cases a with
  | mk d₁ =>
    cases b with
    | mk d₂ =>
      cases hd
      rfl

/-- Insert an element into a list sorted by a string key, keeping it
sorted.  Building block of the model of Go sort.Slice. -/
def insertSorted {α : Type} (key : α → String) (a : α) : List α → List α
  | [] => [a]
  | b :: bs => if goStrLe (key a) (key b) then a :: b :: bs else b :: insertSorted key a bs

/-- Comparison sort by a string key; models the sort.Slice calls of
CreateChecksum, whose less functions compare canonical strings. -/
def sortByKey {α : Type} (key : α → String) : List α → List α
  | [] => []
  | a :: as => insertSorted key a (sortByKey key as)

theorem insertSorted_perm {α : Type} (key : α → String) (a : α) :
    ∀ l : List α, (insertSorted key a l).Perm (a :: l)
  | [] => List.Perm.refl [a]
  | b :: bs => by
    by_cases h : goStrLe (key a) (key b) = true
    · simp [insertSorted, h]
    · simp only [insertSorted, if_neg h]
      exact ((insertSorted_perm key a bs).cons b).trans (List.Perm.swap a b bs)

theorem sortByKey_perm {α : Type} (key : α → String) :
    ∀ l : List α, (sortByKey key l).Perm l
  | [] => List.Perm.refl []
  | a :: as =>
    (insertSorted_perm key a (sortByKey key as)).trans ((sortByKey_perm key as).cons a)

theorem mem_insertSorted {α : Type} (key : α → String) (a x : α) (l : List α) :
    x ∈ insertSorted key a l ↔ x = a ∨ x ∈ l := by
  rw [(insertSorted_perm key a l).mem_iff, List.mem_cons]

theorem pairwise_insertSorted {α : Type} (key : α → String) (a : α) :
    ∀ {l : List α}, l.Pairwise (fun x y => goStrLe (key x) (key y) = true) →
      (insertSorted key a l).Pairwise (fun x y => goStrLe (key x) (key y) = true) := by
  intro l h
  induction l with
  | nil => simp [insertSorted]
  | cons b bs ih =>
    rcases List.pairwise_cons.mp h with ⟨hb, hbs⟩
    by_cases hab : goStrLe (key a) (key b) = true
    · simp only [insertSorted, if_pos hab]
      refine List.pairwise_cons.mpr ⟨?_, h⟩
      intro x hx
      rcases List.mem_cons.mp hx with hx | hx
      · exact hx ▸ hab
      · exact goStrLe_trans hab (hb x hx)
    · simp only [insertSorted, if_neg hab]
      refine List.pairwise_cons.mpr ⟨?_, ih hbs⟩
      intro x hx
      rcases (mem_insertSorted key a x bs).mp hx with hx | hx
      · exact hx ▸ (goStrLe_total (key b) (key a)).resolve_right hab
      · exact hb x hx

theorem pairwise_sortByKey {α : Type} (key : α → String) :
    ∀ l : List α, (sortByKey key l).Pairwise (fun x y => goStrLe (key x) (key y) = true)
  | [] => List.Pairwise.nil
  | a :: as => pairwise_insertSorted key a (pairwise_sortByKey key as)

/-- Two lists that are permutations of each other and both strictly
sorted by a key are equal. -/
theorem eq_of_perm_of_pairwise_lt {α : Type} (key : α → String) :
    ∀ {l₁ l₂ : List α}, l₁.Perm l₂ →
      l₁.Pairwise (fun x y => goStrLe (key x) (key y) = true ∧ key x ≠ key y) →
      l₂.Pairwise (fun x y => goStrLe (key x) (key y) = true ∧ key x ≠ key y) → l₁ = l₂ := by
  intro l₁
  induction l₁ with
  | nil =>
    intro l₂ hp _ _
    exact (List.Perm.eq_nil hp.symm).symm
  | cons a t₁ ih =>
    intro l₂ hp h₁ h₂
    cases l₂ with
    | nil => exact absurd hp.symm (by simp)
    | cons b t₂ =>
      by_cases hab : a = b
      · subst hab
        rcases List.pairwise_cons.mp h₁ with ⟨_, ht₁⟩
        rcases List.pairwise_cons.mp h₂ with ⟨_, ht₂⟩
        rw [ih hp.cons_inv ht₁ ht₂]
      · have ha : a ∈ t₂ := by
          rcases List.mem_cons.mp (hp.mem_iff.mp (List.mem_cons_self a t₁)) with h | h
          · exact absurd h hab
          · exact h
        have hb : b ∈ t₁ := by
          rcases List.mem_cons.mp (hp.symm.mem_iff.mp (List.mem_cons_self b t₂)) with h | h
          · exact absurd h.symm hab
          · exact h
        have hlt₁ := (List.pairwise_cons.mp h₁).1 b hb
        have hlt₂ := (List.pairwise_cons.mp h₂).1 a ha
        exact absurd (goStrLe_antisymm hlt₁.1 hlt₂.1) hlt₁.2

theorem pairwise_lt_of_le_nodup {α : Type} (key : α → String) {l : List α}
    (hle : l.Pairwise (fun x y => goStrLe (key x) (key y) = true))
    (hnd : (l.map key).Nodup) :
    l.Pairwise (fun x y => goStrLe (key x) (key y) = true ∧ key x ≠ key y) := by
  have hne : l.Pairwise (fun x y => key x ≠ key y) := by
    rw [List.Nodup, List.pairwise_map] at hnd
    exact hnd
  exact hle.and hne

/-- Sorting by a key is permutation-invariant as long as the keys of the
elements are pairwise distinct: two inputs holding the same elements in
any order sort to the same list. -/
theorem sortByKey_congr {α : Type} (key : α → String) {l₁ l₂ : List α}
    (hp : l₁.Perm l₂) (hnd : (l₁.map key).Nodup) :
    sortByKey key l₁ = sortByKey key l₂ := by
  have hs₁ := sortByKey_perm key l₁
  have hs₂ := sortByKey_perm key l₂
  have hperm : (sortByKey key l₁).Perm (sortByKey key l₂) :=
    hs₁.trans (hp.trans hs₂.symm)
  have hnd₁ : ((sortByKey key l₁).map key).Nodup := ((hs₁.map key).nodup_iff).mpr hnd
  have hnd₂ : ((sortByKey key l₂).map key).Nodup :=
    ((hs₂.map key).nodup_iff).mpr (((hp.map key).nodup_iff).mp hnd)
  exact eq_of_perm_of_pairwise_lt key hperm
    (pairwise_lt_of_le_nodup key (pairwise_sortByKey key l₁) hnd₁)
    (pairwise_lt_of_le_nodup key (pairwise_sortByKey key l₂) hnd₂)

/-- Sort key of the table loop of CreateChecksum: tables are ordered by
their canonical string form. -/
def tableKey (t : DbTable) : String := t.str

/-- Sort key of the column loop of CreateChecksum: columns are ordered by
name. -/
def colKey (c : ColumnInfo) : String := c.name

/-- Sort key of the CCL loop of CreateChecksum: the strings.Join of
table name, column name and party code with a space separator. -/
def cclKey (c : ColumnControl) : String :=
  c.tableName ++ " " ++ c.columnName ++ " " ++ c.partyCode

/-- The pair of fingerprints of one party.  Each fingerprint is modelled
by the exact stream of strings written into the corresponding SHA-256
hasher; SHA-256 being a deterministic function of its input stream, equal
streams yield byte-identical hashes. -/
structure Checksum where
  tableSchema : List String
  ccl : List String
deriving DecidableEq

/-- The bytes one table contributes to the schema hash: its canonical
string, then name and type descriptor of each column in sorted order. -/
def tableSchemaPart (t : DbTable) (cols : List ColumnInfo) : List String :=
  t.str :: (sortByKey colKey cols).flatMap (fun c => [c.name, c.typeDesc])

/-- The bytes one table contributes to the CCL hash: the CCL entries of
that table, sorted, each contributing table name, column name and
visibility. -/
def cclPart (t : DbTable) (ccls : List ColumnControl) : List String :=
  (sortByKey cclKey
      (ccls.filter (fun c => c.tableName == t.tableName && c.databaseName == t.dbName))).flatMap
    (fun c => [c.tableName, c.columnName, c.visibility])

/-- The body of the per-party loop of CreateChecksum over an already
sorted table list: on each table the info schema is consulted (an error
aborts the whole computation, as in the Go code) and the two hash streams
are extended. -/
def partyStreams (lk : DbTable → Except String (List ColumnInfo))
    (ccls : List ColumnControl) : List DbTable → Except String (List String × List String)
  | [] => Except.ok ([], [])
  | t :: ts =>
    match lk t with
    | Except.error e => Except.error e
    | Except.ok cols =>
      match partyStreams lk ccls ts with
      | Except.error e => Except.error e
      | Except.ok (ss, cs) => Except.ok (tableSchemaPart t cols ++ ss, cclPart t ccls ++ cs)

/-- The fingerprint pair of one party: sort its tables by canonical
string, then run the hashing loop. -/
def checksumForParty (tables : List DbTable)
    (lk : DbTable → Except String (List ColumnInfo))
    (ccls : List ColumnControl) : Except String Checksum :=
  match partyStreams lk ccls (sortByKey tableKey tables) with
  | Except.error e => Except.error e
  | Except.ok (ss, cs) => Except.ok ⟨ss, cs⟩

/-- QueryRunner.CreateChecksum: one fingerprint pair per data party, in
data-party order.  The tables of a party come from EnginesInfo
(GetTablesByParty), the columns from the info schema lookup (TableByName)
and the CCL entries from the runner's ccl list. -/
def CreateChecksum (dataParties : List String)
    (getTablesByParty : String → List DbTable)
    (lk : DbTable → Except String (List ColumnInfo))
    (ccls : List ColumnControl) : Except String (List (String × Checksum)) :=
  match dataParties with
  | [] => Except.ok []
  | p :: ps =>
    match checksumForParty (getTablesByParty p) lk ccls with
    | Except.error e => Except.error e
    | Except.ok ck =>
      match CreateChecksum ps getTablesByParty lk ccls with
      | Except.error e => Except.error e
      | Except.ok rest => Except.ok ((p, ck) :: rest)

/-- Relation between two info schema lookups that hold the same columns
for every table, possibly in different orders, and fail identically. -/
def lookupRel : Except String (List ColumnInfo) → Except String (List ColumnInfo) → Prop
  | Except.error e₁, Except.error e₂ => e₁ = e₂
  | Except.ok l₁, Except.ok l₂ => l₁.Perm l₂
  | _, _ => False

theorem cclPart_congr (t : DbTable) {ccls₁ ccls₂ : List ColumnControl}
    (hp : ccls₁.Perm ccls₂) (hnd : (ccls₁.map cclKey).Nodup) :
    cclPart t ccls₁ = cclPart t ccls₂ := by
  unfold cclPart
  have hpf := hp.filter (fun c => c.tableName == t.tableName && c.databaseName == t.dbName)
  have hndf : ((ccls₁.filter
      (fun c => c.tableName == t.tableName && c.databaseName == t.dbName)).map cclKey).Nodup :=
    List.Nodup.sublist ((List.filter_sublist ccls₁).map cclKey) hnd
  rw [sortByKey_congr cclKey hpf hndf]

theorem partyStreams_congr
    {lk₁ lk₂ : DbTable → Except String (List ColumnInfo)}
    (hlk : ∀ t, lookupRel (lk₁ t) (lk₂ t))
    (hcolnd : ∀ t l, lk₁ t = Except.ok l → (l.map colKey).Nodup)
    {ccls₁ ccls₂ : List ColumnControl}
    (hccl : ccls₁.Perm ccls₂) (hcclnd : (ccls₁.map cclKey).Nodup) :
    ∀ ts : List DbTable, partyStreams lk₁ ccls₁ ts = partyStreams lk₂ ccls₂ ts := by
  intro ts
  induction ts with
  | nil => rfl
  | cons t ts ih =>
    have ht := hlk t
    unfold partyStreams
    cases h₁ : lk₁ t with
    | error e₁ =>
      cases h₂ : lk₂ t with
      | error e₂ =>
        rw [h₁, h₂] at ht
        simp only [lookupRel] at ht
        rw [ht]
      | ok l₂ =>
        rw [h₁, h₂] at ht
        simp only [lookupRel] at ht
    | ok l₁ =>
      cases h₂ : lk₂ t with
      | error e₂ =>
        rw [h₁, h₂] at ht
        simp only [lookupRel] at ht
      | ok l₂ =>
        rw [h₁, h₂] at ht
        simp only [lookupRel] at ht
        have hcols : tableSchemaPart t l₁ = tableSchemaPart t l₂ := by
          unfold tableSchemaPart
          rw [sortByKey_congr colKey ht (hcolnd t l₁ h₁)]
        simp only [ih, hcols, cclPart_congr t hccl hcclnd]

theorem checksumForParty_congr
    {tables₁ tables₂ : List DbTable}
    (hp : tables₁.Perm tables₂) (hnd : (tables₁.map tableKey).Nodup)
    {lk₁ lk₂ : DbTable → Except String (List ColumnInfo)}
    (hlk : ∀ t, lookupRel (lk₁ t) (lk₂ t))
    (hcolnd : ∀ t l, lk₁ t = Except.ok l → (l.map colKey).Nodup)
    {ccls₁ ccls₂ : List ColumnControl}
    (hccl : ccls₁.Perm ccls₂) (hcclnd : (ccls₁.map cclKey).Nodup) :
    checksumForParty tables₁ lk₁ ccls₁ = checksumForParty tables₂ lk₂ ccls₂ := by
  unfold checksumForParty
  rw [← sortByKey_congr tableKey hp hnd,
    partyStreams_congr hlk hcolnd hccl hcclnd (sortByKey tableKey tables₁)]

/-- C1: for every party and every pair of inputs to CreateChecksum that
hold the same underlying set of tables, columns and CCL entries in any
permuted order, the produced fingerprint pairs are byte-identical.  The
inputs are well-formed as required by the data model: table strings are
pairwise distinct, column names within a table are pairwise distinct, and
at most one CCL entry exists per (table, column, destination party). -/
theorem createChecksum_order_independent
    (dataParties : List String)
    (g₁ g₂ : String → List DbTable)
    (lk₁ lk₂ : DbTable → Except String (List ColumnInfo))
    (ccls₁ ccls₂ : List ColumnControl)
    (hg : ∀ p, (g₁ p).Perm (g₂ p))
    (hgnd : ∀ p, ((g₁ p).map tableKey).Nodup)
    (hlk : ∀ t, lookupRel (lk₁ t) (lk₂ t))
    (hcolnd : ∀ t l, lk₁ t = Except.ok l → (l.map colKey).Nodup)
    (hccl : ccls₁.Perm ccls₂)
    (hcclnd : (ccls₁.map cclKey).Nodup) :
    CreateChecksum dataParties g₁ lk₁ ccls₁ = CreateChecksum dataParties g₂ lk₂ ccls₂ := by
  induction dataParties with
  | nil => rfl
  | cons p ps ih =>
    unfold CreateChecksum
    rw [checksumForParty_congr (hg p) (hgnd p) hlk hcolnd hccl hcclnd, ih]

/-- Concrete table of the C1 witness. -/
def tblA : DbTable := ⟨"proj", "ta"⟩

/-- Concrete table of the C1 witness. -/
def tblB : DbTable := ⟨"proj", "tb"⟩

/-- Table lists of the first C1 witness input. -/
def gW1 : String → List DbTable := fun _ => [tblA, tblB]

/-- Table lists of the second C1 witness input: same set, permuted. -/
def gW2 : String → List DbTable := fun _ => [tblB, tblA]

/-- Info schema lookup of the first C1 witness input. -/
def lkW1 : DbTable → Except String (List ColumnInfo) :=
  fun _ => Except.ok [⟨"c1", "int"⟩, ⟨"c2", "str"⟩]

/-- Info schema lookup of the second C1 witness input: columns permuted. -/
def lkW2 : DbTable → Except String (List ColumnInfo) :=
  fun _ => Except.ok [⟨"c2", "str"⟩, ⟨"c1", "int"⟩]

/-- CCL list of the first C1 witness input. -/
def cclsW1 : List ColumnControl :=
  [⟨"proj", "ta", "c1", "alice", "PLAINTEXT"⟩, ⟨"proj", "tb", "c2", "bob", "ENCRYPTED_ONLY"⟩]

/-- CCL list of the second C1 witness input: same set, permuted. -/
def cclsW2 : List ColumnControl :=
  [⟨"proj", "tb", "c2", "bob", "ENCRYPTED_ONLY"⟩, ⟨"proj", "ta", "c1", "alice", "PLAINTEXT"⟩]

/-- Witness for C1: two concrete permuted inputs that differ syntactically
produce identical fingerprint maps. -/
theorem createChecksum_order_independent_witness :
    gW1 "alice" ≠ gW2 "alice" ∧
    CreateChecksum ["alice", "bob"] gW1 lkW1 cclsW1 =
      CreateChecksum ["alice", "bob"] gW2 lkW2 cclsW2 := by
  refine ⟨by decide, createChecksum_order_independent ["alice", "bob"] gW1 gW2 lkW1 lkW2
    cclsW1 cclsW2 (fun p => by simp only [gW1, gW2]; decide)
    (fun p => by simp only [gW1]; decide)
    (fun t => by simp only [lkW1, lkW2, lookupRel]; decide)
    (fun t l h => ?_) (by decide) (by decide)⟩
  simp only [lkW1] at h
  injection h with h'
  subst h'
  decide

/-- The Status message of an ExchangeJobInfoResponse, with its int32
code. -/
structure StatusMsg where
  code : Int
deriving DecidableEq

/-- pb.ExchangeJobInfoResponse restricted to the fields the control flow
of ExchangeJobInfo reads: the nilable status pointer. -/
structure EJIResp where
  status : Option StatusMsg
deriving DecidableEq

/-- The Go protobuf getter chain response.GetStatus().GetCode(): a nil
status reads as code 0. -/
def getCode (r : EJIResp) : Int :=
  match r.status with
  | none => 0
  | some s => s.code

/-- How the retry loop of ExchangeJobInfo ends: a stub RPC error, a
zero-code success returned from inside the loop, or falling to the code
after the loop (by break or by exhausting the attempts) with the last
response. -/
inductive EJILoopExit where
  | stubErr (msg : String)
  | success (r : EJIResp)
  | post (r : EJIResp)
deriving DecidableEq

/-- The retry loop of ExchangeJobInfo.  The stub maps the attempt index
to the RPC outcome of that attempt.  The fuel argument equals
retryTimes - i, so the structural recursion runs out exactly when the
loop guard i < retryTimes turns false; the guard is kept as in the
source.  Returns the loop exit, the number of stub calls made, and the
number of sleep intervals elapsed. -/
def ejiGo (snf : Int) (stub : Nat → Except String EJIResp) (retryTimes : Nat) :
    Nat → Nat → EJIResp → Nat → EJILoopExit × Nat × Nat
  | 0, i, last, sleeps => (EJILoopExit.post last, i, sleeps)
  | fuel + 1, i, last, sleeps =>
    if i < retryTimes then
      match stub i with
      | Except.error e => (EJILoopExit.stubErr e, i + 1, sleeps)
      | Except.ok resp =>
        if getCode resp = snf then
          if i < retryTimes - 1 then
            ejiGo snf stub retryTimes fuel (i + 1) resp (sleeps + 1)
          else
            ejiGo snf stub retryTimes fuel (i + 1) resp sleeps
        else if getCode resp = 0 then
          (EJILoopExit.success resp, i + 1, sleeps)
        else
          (EJILoopExit.post resp, i + 1, sleeps)
    else
      (EJILoopExit.post last, i, sleeps)

/-- QueryRunner.ExchangeJobInfo, from the retry loop on: snf and dic are
the numeric values of pb.Code_SESSION_NOT_FOUND and
pb.Code_DATA_INCONSISTENCY, retryTimes is
Conf.ExchangeJobInfoRetryTimes, and the stub maps each attempt index to
the outcome of the InterStub call.  The initial response value is the
empty message with a nil status.  Returns the overall result, the number
of attempts performed and the number of sleeps. -/
def exchangeJobInfo (snf dic : Int) (retryTimes : Nat)
    (stub : Nat → Except String EJIResp) : Except String EJIResp × Nat × Nat :=
  match ejiGo snf stub retryTimes retryTimes 0 ⟨none⟩ 0 with
  | (EJILoopExit.stubErr e, a, s) => (Except.error ("ExchangeJobInfoStub: " ++ e), a, s)
  | (EJILoopExit.success r, a, s) => (Except.ok r, a, s)
  | (EJILoopExit.post r, a, s) =>
    match r.status with
    | none => (Except.error "err response from party", a, s)
    | some st =>
      if st.code = dic then (Except.ok r, a, s)
      else (Except.error "failed to exchange job info", a, s)

theorem ejiGo_attempts_le (snf : Int) (stub : Nat → Except String EJIResp)
    (retryTimes : Nat) :
    ∀ fuel i last sleeps, i ≤ retryTimes →
      (ejiGo snf stub retryTimes fuel i last sleeps).2.1 ≤ retryTimes := by
  intro fuel
  induction fuel with
  | zero => intro i last sleeps hi; exact hi
  | succ fuel ih =>
    intro i last sleeps hi
    unfold ejiGo
    by_cases hlt : i < retryTimes
    · simp only [if_pos hlt]
      cases stub i with
      | error e => exact hlt
      | ok resp =>
        by_cases hsnf : getCode resp = snf
        · simp only [if_pos hsnf]
          by_cases hlast : i < retryTimes - 1
          · simp only [if_pos hlast]; exact ih (i + 1) resp (sleeps + 1) hlt
          · simp only [if_neg hlast]; exact ih (i + 1) resp sleeps hlt
        · simp only [if_neg hsnf]
          by_cases h0 : getCode resp = 0
          · simp only [if_pos h0]; exact hlt
          · simp only [if_neg h0]; exact hlt
    · simp only [if_neg hlt]
      exact hi

theorem ejiGo_retry_only_snf (snf : Int) (stub : Nat → Except String EJIResp)
    (retryTimes : Nat) :
    ∀ fuel i last sleeps j, i ≤ j →
      j + 1 < (ejiGo snf stub retryTimes fuel i last sleeps).2.1 →
      ∃ r, stub j = Except.ok r ∧ getCode r = snf := by
  intro fuel
  induction fuel with
  | zero =>
    intro i last sleeps j hij hj
    simp only [ejiGo] at hj
    omega
  | succ fuel ih =>
    intro i last sleeps j hij hj
    rw [ejiGo] at hj
    by_cases hlt : i < retryTimes
    · simp only [if_pos hlt] at hj
      cases hstub : stub i with
      | error e =>
        simp only [hstub] at hj
        omega
      | ok resp =>
        simp only [hstub] at hj
        by_cases hsnf : getCode resp = snf
        · simp only [if_pos hsnf] at hj
          rcases Nat.eq_or_lt_of_le hij with heq | hgt
          · subst heq
            exact ⟨resp, hstub, hsnf⟩
          · by_cases hlast : i < retryTimes - 1
            · rw [if_pos hlast] at hj
              exact ih (i + 1) resp (sleeps + 1) j hgt hj
            · rw [if_neg hlast] at hj
              exact ih (i + 1) resp sleeps j hgt hj
        · simp only [if_neg hsnf] at hj
          by_cases h0 : getCode resp = 0
          · simp only [if_pos h0] at hj
            omega
          · simp only [if_neg h0] at hj
            omega
    · simp only [if_neg hlt] at hj
      omega

/-- The concrete three-attempt stub of the C2 scenario: the first two
attempts answer SESSION_NOT_FOUND, the third answers success. -/
def scenarioStub (snf : Int) : Nat → Except String EJIResp :=
  fun j => if j < 2 then Except.ok ⟨some ⟨snf⟩⟩ else Except.ok ⟨some ⟨0⟩⟩

/-- C2: ExchangeJobInfo performs at most retryTimes attempts and re-sends
the request only when the previous response's status code was
SESSION_NOT_FOUND; and in the concrete scenario where the first two of
three allowed attempts return SESSION_NOT_FOUND and the third returns
success, the caller receives the success response after exactly three
attempts and exactly two sleep intervals. -/
theorem exchangeJobInfo_retry_policy :
    (∀ (snf dic : Int) (retryTimes : Nat) (stub : Nat → Except String EJIResp),
      (exchangeJobInfo snf dic retryTimes stub).2.1 ≤ retryTimes ∧
      (∀ j, j + 1 < (exchangeJobInfo snf dic retryTimes stub).2.1 →
        ∃ r, stub j = Except.ok r ∧ getCode r = snf)) ∧
    (∀ snf : Int, snf ≠ 0 →
      exchangeJobInfo snf 732 3 (scenarioStub snf) =
        (Except.ok ⟨some ⟨0⟩⟩, 3, 2)) := by
  constructor
  · intro snf dic retryTimes stub
    have hloop : (exchangeJobInfo snf dic retryTimes stub).2 =
        (ejiGo snf stub retryTimes retryTimes 0 ⟨none⟩ 0).2 := by
      unfold exchangeJobInfo
      rcases h : ejiGo snf stub retryTimes retryTimes 0 ⟨none⟩ 0 with ⟨ex, a, s⟩
      cases ex with
      | stubErr e => simp
      | success r => simp
      | post r =>
        cases hr : r.status with
        | none => simp [hr]
        | some st =>
          by_cases hd : st.code = dic
          · simp [hr, hd]
          · simp [hr, hd]
    constructor
    · rw [show (exchangeJobInfo snf dic retryTimes stub).2.1 =
        (ejiGo snf stub retryTimes retryTimes 0 ⟨none⟩ 0).2.1 from congrArg Prod.fst hloop]
      exact ejiGo_attempts_le snf stub retryTimes retryTimes 0 ⟨none⟩ 0 (Nat.zero_le _)
    · intro j hj
      rw [show (exchangeJobInfo snf dic retryTimes stub).2.1 =
        (ejiGo snf stub retryTimes retryTimes 0 ⟨none⟩ 0).2.1 from congrArg Prod.fst hloop] at hj
      exact ejiGo_retry_only_snf snf stub retryTimes retryTimes 0 ⟨none⟩ 0 j (Nat.zero_le j) hj
  · intro snf h
    have h0 : ¬ ((0 : Int) = snf) := fun he => h he.symm
    have hs : ¬ (snf = 0) := h
    simp [exchangeJobInfo, ejiGo, scenarioStub, getCode, h0, hs]

/-- Witness for C2: the retry policy instantiated at a concrete
SESSION_NOT_FOUND code and the concrete three-attempt scenario. -/
theorem exchangeJobInfo_retry_policy_witness :
    exchangeJobInfo 700 732 3 (scenarioStub 700) = (Except.ok ⟨some ⟨0⟩⟩, 3, 2) ∧
    (exchangeJobInfo 700 732 3 (scenarioStub 700)).2.1 ≤ 3 :=
  ⟨exchangeJobInfo_retry_policy.2 700 (by decide),
   (exchangeJobInfo_retry_policy.1 700 732 3 (scenarioStub 700)).1⟩

/-- A stub whose every response carries no status object at all. -/
def nilStatusStub : Nat → Except String EJIResp := fun _ => Except.ok ⟨none⟩

/-- C3 counterexample: with one allowed attempt and a response whose
status object is absent, ExchangeJobInfo returns that response as a
success, not an error: GetStatus().GetCode() reads a nil status as code
0, so the response takes the zero-code return inside the loop and the
post-loop nil check is never reached. -/
theorem exchangeJobInfo_nil_status_counterexample :
    (exchangeJobInfo 700 732 1 nilStatusStub).1 = Except.ok ⟨none⟩ ∧
    (⟨none⟩ : EJIResp).status = none := by
  constructor
  · rfl
  · rfl

theorem getCode_none {r : EJIResp} (h : r.status = none) : getCode r = 0 := by
  unfold getCode
  rw [h]

/-- Once a real attempt has run, any fall-through of the retry loop
carries a response whose status is present: a SESSION_NOT_FOUND
continuation and a break on a non-zero code both require a non-nil
status, since a nil status reads as code 0. -/
theorem ejiGo_post_status (snf : Int) (stub : Nat → Except String EJIResp)
    (retryTimes : Nat) (hsnf : snf ≠ 0) :
    ∀ fuel i last sleeps r a s,
      (last.status ≠ none ∨ (0 < fuel ∧ i < retryTimes)) →
      ejiGo snf stub retryTimes fuel i last sleeps = (EJILoopExit.post r, a, s) →
      r.status ≠ none := by
  intro fuel
  induction fuel with
  | zero =>
    intro i last sleeps r a s hd h
    simp only [ejiGo, Prod.mk.injEq, EJILoopExit.post.injEq] at h
    rcases h with ⟨hr, _, _⟩
    subst hr
    rcases hd with hd | hd
    · exact hd
    · exact absurd hd.1 (by omega)
  | succ fuel ih =>
    intro i last sleeps r a s hd h
    rw [ejiGo] at h
    by_cases hlt : i < retryTimes
    · simp only [if_pos hlt] at h
      cases hstub : stub i with
      | error e =>
        rw [hstub] at h
        simp at h
      | ok resp =>
        rw [hstub] at h
        by_cases hc : getCode resp = snf
        · simp only [if_pos hc] at h
          have hresp : resp.status ≠ none := by
            intro hn
            exact hsnf (by rw [← hc, getCode_none hn])
          by_cases hlast2 : i < retryTimes - 1
          · rw [if_pos hlast2] at h
            exact ih (i + 1) resp (sleeps + 1) r a s (Or.inl hresp) h
          · rw [if_neg hlast2] at h
            exact ih (i + 1) resp sleeps r a s (Or.inl hresp) h
        · simp only [if_neg hc] at h
          by_cases h0 : getCode resp = 0
          · rw [if_pos h0] at h
            simp at h
          · rw [if_neg h0] at h
            simp only [Prod.mk.injEq, EJILoopExit.post.injEq] at h
            rcases h with ⟨hr, _, _⟩
            subst hr
            intro hn
            exact h0 (getCode_none hn)
    · simp only [if_neg hlt] at h
      simp only [Prod.mk.injEq, EJILoopExit.post.injEq] at h
      rcases h with ⟨hr, _, _⟩
      subst hr
      rcases hd with hd | hd
      · exact hd
      · exact absurd hd.2 hlt

/-- If every attempt before j answered SESSION_NOT_FOUND and attempt j
answers with a status-absent response, the loop returns that response
through the zero-code success branch. -/
theorem ejiGo_reaches_nil (snf : Int) (stub : Nat → Except String EJIResp)
    (retryTimes : Nat) (hsnf : snf ≠ 0) (j : Nat) (hj : j < retryTimes)
    (hpre : ∀ k, k < j → ∃ r, stub k = Except.ok r ∧ getCode r = snf)
    (hstub : stub j = Except.ok ⟨none⟩) :
    ∀ fuel i last sleeps, fuel = retryTimes - i → i ≤ j →
      (ejiGo snf stub retryTimes fuel i last sleeps).1 = EJILoopExit.success ⟨none⟩ := by
  intro fuel
  induction fuel with
  | zero =>
    intro i last sleeps hfuel hij
    exact absurd hfuel (by omega)
  | succ fuel ih =>
    intro i last sleeps hfuel hij
    have hlt : i < retryTimes := by omega
    rw [ejiGo]
    simp only [if_pos hlt]
    by_cases hieq : i = j
    · subst hieq
      rw [hstub]
      dsimp only [getCode]
      rw [if_neg (fun he => hsnf (Eq.symm he)), if_pos rfl]
    · have hik : i < j := by omega
      rcases hpre i hik with ⟨resp, hst, hc⟩
      rw [hst]
      dsimp only
      rw [if_pos hc]
      by_cases hl2 : i < retryTimes - 1
      · rw [if_pos hl2]
        exact ih (i + 1) resp (sleeps + 1) (by omega) (by omega)
      · rw [if_neg hl2]
        exact ih (i + 1) resp sleeps (by omega) (by omega)

/-- The stub-error message of ExchangeJobInfo never coincides with its
missing-status message, whatever the underlying RPC error text. -/
theorem stubErrMsg_ne (e : String) :
    ("ExchangeJobInfoStub: " ++ e) ≠ "err response from party" := by
  cases e with
  | mk d =>
    intro h
    have hh : some 'E' = some 'e' := congrArg (fun s => s.data.head?) h
    exact absurd hh (by decide)

/-- C3 (amended): a response with an absent status object received by
any attempt is treated as status code 0 and returned to the caller as a
success; the missing-status error is returned exactly when the loop
makes no attempt at all, that is when the configured retry count is
zero. -/
theorem exchangeJobInfo_nil_status_amended :
    (∀ (snf dic : Int) (retryTimes : Nat) (stub : Nat → Except String EJIResp) (j : Nat),
      snf ≠ 0 → j < retryTimes →
      (∀ k, k < j → ∃ r, stub k = Except.ok r ∧ getCode r = snf) →
      stub j = Except.ok ⟨none⟩ →
      (exchangeJobInfo snf dic retryTimes stub).1 = Except.ok ⟨none⟩) ∧
    (∀ (snf dic : Int) (retryTimes : Nat) (stub : Nat → Except String EJIResp),
      snf ≠ 0 →
      ((exchangeJobInfo snf dic retryTimes stub).1 =
          Except.error "err response from party" ↔ retryTimes = 0)) := by
  constructor
  · intro snf dic retryTimes stub j hsnf hj hpre hstub
    have hloop := ejiGo_reaches_nil snf stub retryTimes hsnf j hj hpre hstub
      retryTimes 0 ⟨none⟩ 0 (by omega) (Nat.zero_le j)
    unfold exchangeJobInfo
    rcases hres : ejiGo snf stub retryTimes retryTimes 0 ⟨none⟩ 0 with ⟨ex, a, s⟩
    rw [hres] at hloop
    dsimp only at hloop
    subst hloop
    rfl
  · intro snf dic retryTimes stub hsnf
    constructor
    · intro h
      cases retryTimes with
      | zero => rfl
      | succ k =>
        exfalso
        unfold exchangeJobInfo at h
        rcases hres : ejiGo snf stub (k + 1) (k + 1) 0 ⟨none⟩ 0 with ⟨ex, a, s⟩
        rw [hres] at h
        cases ex with
        | stubErr e =>
          dsimp only at h
          simp only [Except.error.injEq] at h
          exact stubErrMsg_ne e h
        | success r =>
          dsimp only at h
          simp at h
        | post r =>
          dsimp only at h
          cases hst : r.status with
          | none =>
            exact ejiGo_post_status snf stub (k + 1) hsnf (k + 1) 0 ⟨none⟩ 0 r a s
              (Or.inr ⟨Nat.succ_pos k, Nat.succ_pos k⟩) hres hst
          | some st =>
            rw [hst] at h
            dsimp only at h
            by_cases hd : st.code = dic
            · rw [if_pos hd] at h
              simp at h
            · rw [if_neg hd] at h
              simp only [Except.error.injEq] at h
              exact absurd h (by decide)
    · intro h
      subst h
      rfl

/-- The stub of the C3 amended witness: attempt 0 answers
SESSION_NOT_FOUND, later attempts answer with an absent status. -/
def nilStatusStub2 (snf : Int) : Nat → Except String EJIResp :=
  fun j => if j = 0 then Except.ok ⟨some ⟨snf⟩⟩ else Except.ok ⟨none⟩

/-- Witness for the amended C3: a status-absent response received by the
second attempt is returned as success, and with a zero retry count the
missing-status error is returned. -/
theorem exchangeJobInfo_nil_status_amended_witness :
    (exchangeJobInfo 700 732 3 (nilStatusStub2 700)).1 = Except.ok ⟨none⟩ ∧
    ((exchangeJobInfo 700 732 0 nilStatusStub).1 =
        Except.error "err response from party" ↔ (0 : Nat) = 0) :=
  ⟨exchangeJobInfo_nil_status_amended.1 700 732 3 (nilStatusStub2 700) 1 (by decide)
      (by decide)
      (fun k hk => by
        have hk0 : k = 0 := by omega
        subst hk0
        exact ⟨⟨some ⟨700⟩⟩, rfl, rfl⟩)
      rfl,
   exchangeJobInfo_nil_status_amended.2 700 732 0 nilStatusStub (by decide)⟩

/-- storage.TableMeta restricted to the fields prepareData reads:
project id, table name, owner, physical reference, backing database
type, and the column descriptors. -/
structure TableMeta where
  projectID : String
  tableName : String
  owner : String
  refTable : String
  dbType : String
  columns : List (String × String)
deriving DecidableEq

/-- The parsed physical reference of a table: the referenced DbTable and
its database type, as produced by NewDbTableFromString plus SetDBType. -/
structure RefInfo where
  ref : DbTable
  dbType : String
deriving DecidableEq

/-- translator.EnginesInfo as built by prepareData: party info, the
party-to-owned-tables map and the table-to-reference map. -/
structure EnginesInfo where
  partyInfo : List String
  party2Tables : List (String × List DbTable)
  tableToRefs : List (DbTable × RefInfo)
deriving DecidableEq

/-- The info schema payload cached on the runner; its construction
(CreateInfoSchema) calls external type conversions and is passed in as a
function where needed. -/
structure InfoSchema where
  tables : List (String × List ColumnInfo)
deriving DecidableEq

/-- storage.ColumnPriv as returned by ListColumnConstraints. -/
structure ColumnPriv where
  projectID : String
  tableName : String
  columnName : String
  destParty : String
  priv : String
deriving DecidableEq

/-- The mutable fields of QueryRunner. -/
structure Runner where
  info : Option EnginesInfo
  is : Option InfoSchema
  ccls : List ColumnControl
  tables : List TableMeta
  prepareAgain : Bool
deriving DecidableEq

/-- QueryRunner.Clear: drops info, info schema and ccls; the tables cache
and the prepareAgain flag are untouched. -/
def Runner.clear (r : Runner) : Runner :=
  { r with info := none, is := none, ccls := [] }

/-- The external collaborators of prepareData, already closed over the
session: the two metadata transactions' table fetch
(GetTableMetasByTableNames returns resolved metas plus the not-found
names), the project member list, the peer ask, the reference and db-type
parsers, the party info fetch and the column constraint listing. -/
structure PrepEnv where
  fetch1 : List String → Except String (List TableMeta × List String)
  getMembers : Except String (List String)
  askPeers : Except String Unit
  fetch2 : List String → Except String (List TableMeta × List String)
  parseRef : String → Except String DbTable
  parseDBType : String → Except String String
  getPartyInfo : List String → Except String (List String)
  listCCL : List String → List String → Except String (List ColumnPriv)

/-- The errors prepareData and Prepare can return, with the
table-not-found case carrying the names of the missing tables as the Go
error message does. -/
inductive PrepError where
  | storage (msg : String)
  | tableNotFound (missing : List String)
  | parse (msg : String)
  | infoSchema (msg : String)
deriving DecidableEq

/-- Modelled from the spec: sliceutil.SliceDeDup is not among the
analysed sources.  The call site comment says it sorts the parties and
compacts, and the spec describes the result as a deduplicated,
order-independent sorted set; modelled as sorting followed by removing
duplicates. -/
def sliceDeDup (l : List String) : List String :=
  (sortByKey (fun s => s) l).dedup

/-- The translation of one ColumnPriv row into a
SecurityConfig_ColumnControl: the visibility enum is looked up from the
upper-cased privilege string. -/
def privToCCL (p : ColumnPriv) : ColumnControl :=
  ⟨p.projectID, p.tableName, p.columnName, p.destParty, p.priv.toUpper⟩

/-- Appending a table to a party's entry of the party-to-tables map,
creating the entry if absent, as the Go map insertion does. -/
def addToParty : List (String × List DbTable) → String → DbTable → List (String × List DbTable)
  | [], owner, t => [(owner, [t])]
  | (o, ts) :: rest, owner, t =>
    if o = owner then (o, ts ++ [t]) :: rest else (o, ts) :: addToParty rest owner t

/-- The table loop of prepareData: collect the owners, the
party-to-tables map and the table-to-reference map; a reference or
db-type parse failure aborts. -/
def buildPartyMaps (env : PrepEnv) :
    List TableMeta → List String → List (String × List DbTable) → List (DbTable × RefInfo) →
      Except String (List String × List (String × List DbTable) × List (DbTable × RefInfo))
  | [], ps, p2t, refs => Except.ok (ps, p2t, refs)
  | t :: ts, ps, p2t, refs =>
    match env.parseRef t.refTable with
    | Except.error e => Except.error e
    | Except.ok ref =>
      match env.parseDBType t.dbType with
      | Except.error e => Except.error e
      | Except.ok dbt =>
        buildPartyMaps env ts (ps ++ [t.owner])
          (addToParty p2t t.owner ⟨t.projectID, t.tableName⟩)
          (refs ++ [(⟨t.projectID, t.tableName⟩, ⟨ref, dbt⟩)])

/-- The tail of prepareData, from the table loop to the return: derive
dataParties and workParties, fetch party info, commit EnginesInfo,
list the column constraints and append them to the runner's ccls.  As in
the source, EnginesInfo is committed before the constraint listing, so a
listing failure still leaves the new EnginesInfo in place. -/
def prepareTail (env : PrepEnv) (issuer : String) (names : List String) (r : Runner) :
    Runner × Except PrepError (List String × List String) :=
  match buildPartyMaps env r.tables [] [] [] with
  | Except.error e => (r, Except.error (PrepError.parse e))
  | Except.ok (parties, p2t, refs) =>
    let dataParties := sliceDeDup parties
    let workParties := sliceDeDup (dataParties ++ [issuer])
    match env.getPartyInfo workParties with
    | Except.error e => (r, Except.error (PrepError.storage e))
    | Except.ok pinfo =>
      let r2 := { r with info := some ⟨pinfo, p2t, refs⟩ }
      match env.listCCL names workParties with
      | Except.error e => (r2, Except.error (PrepError.storage e))
      | Except.ok privs =>
        ({ r2 with ccls := r2.ccls ++ privs.map privToCCL },
          Except.ok (dataParties, workParties))

/-- QueryRunner.prepareData.  The first fetch commits its resolved metas
into the runner's tables cache; when some names were not found and the
prepareAgain flag is not set, the peer ask runs (its own failure is only
logged) and a second fetch is committed; names still missing after the
second fetch produce the TableNotFound error.  When prepareAgain is set
the not-found branch is skipped entirely. -/
def prepareData (env : PrepEnv) (issuer : String) (names : List String) (r : Runner) :
    Runner × Except PrepError (List String × List String) :=
  match env.fetch1 names with
  | Except.error e => ({ r with tables := [] }, Except.error (PrepError.storage e))
  | Except.ok (ts1, nf1) =>
    let r1 := { r with tables := ts1 }
    if nf1 ≠ [] ∧ r.prepareAgain = false then
      match env.getMembers with
      | Except.error e => (r1, Except.error (PrepError.storage e))
      | Except.ok _members =>
        match env.fetch2 names with
        | Except.error e => ({ r1 with tables := [] }, Except.error (PrepError.storage e))
        | Except.ok (ts2, nf2) =>
          let r2 := { r1 with tables := ts2 }
          if nf2 ≠ [] then (r2, Except.error (PrepError.tableNotFound nf2))
          else prepareTail env issuer names r2
    else prepareTail env issuer names r1

/-- QueryRunner.Prepare: clear the cached info, info schema and ccls,
derive the used table names, run prepareData, then build and commit the
info schema (CreateInfoSchema's external type conversions are abstracted
by the mkIS argument). -/
def Prepare (env : PrepEnv) (issuer : String)
    (mkIS : List TableMeta → Except String InfoSchema)
    (r : Runner) (usedTables : List DbTable) :
    Runner × Except PrepError (List String × List String) :=
  let names := usedTables.map DbTable.tableName
  match prepareData env issuer names r.clear with
  | (r2, Except.error e) => (r2, Except.error e)
  | (r2, Except.ok dw) =>
    match mkIS r2.tables with
    | Except.error e => (r2, Except.error (PrepError.infoSchema e))
    | Except.ok sch => ({ r2 with is := some sch }, Except.ok dw)

theorem eq_of_perm_of_pairwise_le_str :
    ∀ {l₁ l₂ : List String}, l₁.Perm l₂ →
      l₁.Pairwise (fun a b => goStrLe a b = true) →
      l₂.Pairwise (fun a b => goStrLe a b = true) → l₁ = l₂ := by
  intro l₁
  induction l₁ with
  | nil =>
    intro l₂ hp _ _
    exact (List.Perm.eq_nil hp.symm).symm
  | cons a t₁ ih =>
    intro l₂ hp h₁ h₂
    cases l₂ with
    | nil => exact absurd hp.symm (by simp)
    | cons b t₂ =>
      by_cases hab : a = b
      · subst hab
        rcases List.pairwise_cons.mp h₁ with ⟨_, ht₁⟩
        rcases List.pairwise_cons.mp h₂ with ⟨_, ht₂⟩
        rw [ih hp.cons_inv ht₁ ht₂]
      · have ha : a ∈ t₂ := by
          rcases List.mem_cons.mp (hp.mem_iff.mp (List.mem_cons_self a t₁)) with h | h
          · exact absurd h hab
          · exact h
        have hb : b ∈ t₁ := by
          rcases List.mem_cons.mp (hp.symm.mem_iff.mp (List.mem_cons_self b t₂)) with h | h
          · exact absurd h.symm hab
          · exact h
        have hle₁ : goStrLe a b = true := (List.pairwise_cons.mp h₁).1 b hb
        have hle₂ : goStrLe b a = true := (List.pairwise_cons.mp h₂).1 a ha
        exact absurd (goStrLe_antisymm hle₁ hle₂) hab

theorem sliceDeDup_perm_congr {l₁ l₂ : List String} (hp : l₁.Perm l₂) :
    sliceDeDup l₁ = sliceDeDup l₂ := by
  unfold sliceDeDup
  rw [eq_of_perm_of_pairwise_le_str
    ((sortByKey_perm (fun s => s) l₁).trans (hp.trans (sortByKey_perm (fun s => s) l₂).symm))
    (pairwise_sortByKey (fun s => s) l₁) (pairwise_sortByKey (fun s => s) l₂)]

theorem sliceDeDup_mem (x : String) (l : List String) :
    x ∈ sliceDeDup l ↔ x ∈ l := by
  unfold sliceDeDup
  rw [List.mem_dedup]
  exact (sortByKey_perm (fun s => s) l).mem_iff

theorem sliceDeDup_nodup (l : List String) : (sliceDeDup l).Nodup :=
  List.nodup_dedup _

theorem sliceDeDup_sorted (l : List String) :
    (sliceDeDup l).Pairwise (fun a b => goStrLe a b = true) :=
  List.Pairwise.sublist (List.dedup_sublist _) (pairwise_sortByKey (fun s => s) l)

theorem prepareTail_no_tableNotFound (env : PrepEnv) (issuer : String)
    (names : List String) (r : Runner) (missing : List String) :
    (prepareTail env issuer names r).2 ≠ Except.error (PrepError.tableNotFound missing) := by
  unfold prepareTail
  split
  · simp
  · dsimp only
    split
    · simp
    · split <;> simp

theorem prepareTail_tables (env : PrepEnv) (issuer : String)
    (names : List String) (r : Runner) :
    (prepareTail env issuer names r).1.tables = r.tables := by
  unfold prepareTail
  split
  · rfl
  · dsimp only
    split
    · rfl
    · split <;> rfl

theorem prepareData_prepareAgain_no_tnf (env : PrepEnv) (issuer : String)
    (names : List String) (r : Runner) (missing : List String)
    (hpa : r.prepareAgain = true) :
    (prepareData env issuer names r).2 ≠ Except.error (PrepError.tableNotFound missing) := by
  unfold prepareData
  cases hf : env.fetch1 names with
  | error e => simp
  | ok v =>
    rcases v with ⟨ts1, nf1⟩
    have hcond : ¬ (nf1 ≠ [] ∧ r.prepareAgain = false) := by
      rintro ⟨_, hfalse⟩
      rw [hpa] at hfalse
      exact Bool.noConfusion hfalse
    dsimp only
    rw [if_neg hcond]
    exact prepareTail_no_tableNotFound env issuer names _ missing

/-- C4 (amended): when the prepareAgain flag is not set, table names
still unresolved after the peer-ask retry make Prepare fail with a
TableNotFound error naming exactly the missing tables; but when the
prepareAgain flag is set, the missing-table check is skipped entirely and
Prepare proceeds with only the locally resolved subset, never returning
TableNotFound. -/
theorem prepare_tableNotFound_amended :
    (∀ (env : PrepEnv) (issuer : String) (mkIS : List TableMeta → Except String InfoSchema)
        (r : Runner) (usedTables : List DbTable) (ts1 : List TableMeta) (nf1 : List String)
        (ms : List String) (ts2 : List TableMeta) (nf2 : List String),
      r.prepareAgain = false →
      env.fetch1 (usedTables.map DbTable.tableName) = Except.ok (ts1, nf1) → nf1 ≠ [] →
      env.getMembers = Except.ok ms →
      env.fetch2 (usedTables.map DbTable.tableName) = Except.ok (ts2, nf2) → nf2 ≠ [] →
      (Prepare env issuer mkIS r usedTables).2 = Except.error (PrepError.tableNotFound nf2)) ∧
    (∀ (env : PrepEnv) (issuer : String) (mkIS : List TableMeta → Except String InfoSchema)
        (r : Runner) (usedTables : List DbTable) (missing : List String),
      r.prepareAgain = true →
      (Prepare env issuer mkIS r usedTables).2 ≠ Except.error (PrepError.tableNotFound missing)) := by
  constructor
  · intro env issuer mkIS r usedTables ts1 nf1 ms ts2 nf2 hpa hf1 hnf1 hm hf2 hnf2
    have hcond : nf1 ≠ [] ∧ (Runner.clear r).prepareAgain = false := by
      exact ⟨hnf1, by simp [Runner.clear, hpa]⟩
    unfold Prepare prepareData
    dsimp only
    rw [hf1]
    dsimp only
    rw [if_pos hcond, hm, hf2]
    dsimp only
    rw [if_pos hnf2]
  · intro env issuer mkIS r usedTables missing hpa
    have hpd := prepareData_prepareAgain_no_tnf env issuer (usedTables.map DbTable.tableName)
      (Runner.clear r) missing (by simp [Runner.clear, hpa])
    unfold Prepare
    dsimp only
    rcases hres : prepareData env issuer (usedTables.map DbTable.tableName) (Runner.clear r)
      with ⟨r2, res⟩
    rw [hres] at hpd
    cases res with
    | error e =>
      simpa using hpd
    | ok dw =>
      cases hmk : mkIS r2.tables with
      | error e => simp [hmk]
      | ok sch => simp [hmk]

/-- C4 counterexample: a concrete environment where the only referenced
table is resolved neither locally nor after the peer ask, yet a runner
whose prepareAgain flag is set makes Prepare return success with the
empty resolved subset instead of TableNotFound. -/
def envC4 : PrepEnv :=
  { fetch1 := fun _ => Except.ok ([], ["t1"])
  , getMembers := Except.ok []
  , askPeers := Except.ok ()
  , fetch2 := fun _ => Except.ok ([], ["t1"])
  , parseRef := fun _ => Except.ok ⟨"", ""⟩
  , parseDBType := fun s => Except.ok s
  , getPartyInfo := fun ps => Except.ok ps
  , listCCL := fun _ _ => Except.ok [] }

/-- The runner of the C4 counterexample: fresh state with the
prepareAgain flag set. -/
def runnerC4 : Runner :=
  { info := none, is := none, ccls := [], tables := [], prepareAgain := true }

/-- The trivial info schema builder of the C4 counterexample. -/
def mkISC4 : List TableMeta → Except String InfoSchema := fun _ => Except.ok ⟨[]⟩

/-- C4 counterexample: both fetches leave table t1 unresolved, the
prepareAgain flag is set, and Prepare succeeds with the empty table
subset rather than returning TableNotFound. -/
theorem prepare_tableNotFound_counterexample :
    envC4.fetch1 ["t1"] = Except.ok ([], ["t1"]) ∧
    envC4.fetch2 ["t1"] = Except.ok ([], ["t1"]) ∧
    runnerC4.prepareAgain = true ∧
    (Prepare envC4 "alice" mkISC4 runnerC4 [⟨"proj", "t1"⟩]).2 =
      Except.ok ([], ["alice"]) := by
  refine ⟨rfl, rfl, rfl, ?_⟩
  rfl

/-- Witness for the amended C4: both branches run on concrete inputs. -/
def runnerC4b : Runner :=
  { info := none, is := none, ccls := [], tables := [], prepareAgain := false }

theorem prepare_tableNotFound_amended_witness :
    (Prepare envC4 "alice" mkISC4 runnerC4b [⟨"proj", "t1"⟩]).2 =
      Except.error (PrepError.tableNotFound ["t1"]) ∧
    (Prepare envC4 "alice" mkISC4 runnerC4 [⟨"proj", "t1"⟩]).2 ≠
      Except.error (PrepError.tableNotFound ["t1"]) :=
  ⟨prepare_tableNotFound_amended.1 envC4 "alice" mkISC4 runnerC4b [⟨"proj", "t1"⟩]
      [] ["t1"] [] [] ["t1"] rfl rfl (by decide) rfl rfl (by decide),
   prepare_tableNotFound_amended.2 envC4 "alice" mkISC4 runnerC4 [⟨"proj", "t1"⟩] ["t1"] rfl⟩

theorem prepareData_tableNotFound_state (env : PrepEnv) (issuer : String)
    (names : List String) (r r' : Runner) (missing : List String)
    (h : prepareData env issuer names r = (r', Except.error (PrepError.tableNotFound missing))) :
    r'.info = r.info ∧ r'.is = r.is ∧ r'.ccls = r.ccls ∧ r'.prepareAgain = r.prepareAgain := by
  unfold prepareData at h
  cases hf1 : env.fetch1 names with
  | error e =>
    rw [hf1] at h
    simp at h
  | ok v =>
    rcases v with ⟨ts1, nf1⟩
    rw [hf1] at h
    dsimp only at h
    by_cases hcond : nf1 ≠ [] ∧ r.prepareAgain = false
    · rw [if_pos hcond] at h
      cases hm : env.getMembers with
      | error e =>
        rw [hm] at h
        simp at h
      | ok ms =>
        rw [hm] at h
        cases hf2 : env.fetch2 names with
        | error e =>
          rw [hf2] at h
          simp at h
        | ok v2 =>
          rcases v2 with ⟨ts2, nf2⟩
          rw [hf2] at h
          dsimp only at h
          by_cases hnf2 : nf2 ≠ []
          · rw [if_pos hnf2] at h
            have hr' : ({ r with tables := ts2 } : Runner) = r' := by
              simpa using congrArg Prod.fst h
            rw [← hr']
            exact ⟨rfl, rfl, rfl, rfl⟩
          · rw [if_neg hnf2] at h
            exact absurd (congrArg Prod.snd h)
              (prepareTail_no_tableNotFound env issuer names _ missing)
    · rw [if_neg hcond] at h
      exact absurd (congrArg Prod.snd h)
        (prepareTail_no_tableNotFound env issuer names _ missing)

/-- C5 (amended): when Prepare fails with TableNotFound, no EnginesInfo,
info schema or ccl list is committed: the returned runner holds none,
none and the empty list for those fields, since Clear wiped them at
entry and the failing path never reassigns them.  The pre-call cached
values themselves are not preserved: Clear erases info, the info schema
and the ccls at entry, and the tables cache is overwritten with the
fetch results. -/
theorem prepare_tableNotFound_state_amended (env : PrepEnv) (issuer : String)
    (mkIS : List TableMeta → Except String InfoSchema) (r r' : Runner)
    (usedTables : List DbTable) (missing : List String)
    (h : Prepare env issuer mkIS r usedTables =
      (r', Except.error (PrepError.tableNotFound missing))) :
    r'.info = none ∧ r'.is = none ∧ r'.ccls = [] ∧ r'.prepareAgain = r.prepareAgain := by
  unfold Prepare at h
  dsimp only at h
  rcases hres : prepareData env issuer (List.map DbTable.tableName usedTables) r.clear
    with ⟨r2, res⟩
  rw [hres] at h
  cases res with
  | error e =>
    have hr : r2 = r' := by simpa using congrArg Prod.fst h
    have he : e = PrepError.tableNotFound missing := by simpa using congrArg Prod.snd h
    subst he
    have hst := prepareData_tableNotFound_state env issuer _ r.clear r2 missing hres
    rw [← hr]
    exact ⟨hst.1.trans rfl, hst.2.1.trans rfl, hst.2.2.1.trans rfl, hst.2.2.2.trans rfl⟩
  | ok dw =>
    dsimp only at h
    cases hmk : mkIS r2.tables with
    | error e =>
      rw [hmk] at h
      simp at h
    | ok sch =>
      rw [hmk] at h
      simp at h

/-- The EnginesInfo cached on the runner before the C5 counterexample
call. -/
def einfoC5 : EnginesInfo := ⟨["alice"], [], []⟩

/-- Environment of the C5 counterexample: table t1 resolves neither
locally nor after the peer ask. -/
def envC5 : PrepEnv :=
  { fetch1 := fun _ => Except.ok ([], ["t1"])
  , getMembers := Except.ok ["alice", "bob"]
  , askPeers := Except.ok ()
  , fetch2 := fun _ => Except.ok ([], ["t1"])
  , parseRef := fun _ => Except.ok ⟨"", ""⟩
  , parseDBType := fun s => Except.ok s
  , getPartyInfo := fun ps => Except.ok ps
  , listCCL := fun _ _ => Except.ok [] }

/-- Info schema builder of the C5 counterexample. -/
def mkISC5 : List TableMeta → Except String InfoSchema := fun _ => Except.ok ⟨[]⟩

/-- Runner of the C5 counterexample, holding a cached EnginesInfo from
an earlier successful preparation. -/
def runnerC5 : Runner :=
  { info := some einfoC5, is := none, ccls := [], tables := [], prepareAgain := false }

/-- C5 counterexample: a Prepare call failing with TableNotFound does
not leave the cached state exactly as it was before the call: the
previously cached EnginesInfo is wiped to none by the Clear at entry. -/
theorem prepare_state_counterexample :
    (Prepare envC5 "alice" mkISC5 runnerC5 [⟨"proj", "t1"⟩]).2 =
      Except.error (PrepError.tableNotFound ["t1"]) ∧
    runnerC5.info = some einfoC5 ∧
    (Prepare envC5 "alice" mkISC5 runnerC5 [⟨"proj", "t1"⟩]).1.info = none :=
  ⟨rfl, rfl, rfl⟩

/-- Witness for the amended C5: a concrete TableNotFound failure whose
resulting runner state carries no EnginesInfo, info schema or ccls. -/
theorem prepare_tableNotFound_state_amended_witness :
    (Prepare envC5 "bob" mkISC5 runnerC5 [⟨"proj", "t1"⟩]).2 =
      Except.error (PrepError.tableNotFound ["t1"]) ∧
    (Prepare envC5 "bob" mkISC5 runnerC5 [⟨"proj", "t1"⟩]).1.info = none ∧
    (Prepare envC5 "bob" mkISC5 runnerC5 [⟨"proj", "t1"⟩]).1.is = none ∧
    (Prepare envC5 "bob" mkISC5 runnerC5 [⟨"proj", "t1"⟩]).1.ccls = [] := by
  have h : Prepare envC5 "bob" mkISC5 runnerC5 [⟨"proj", "t1"⟩] =
      ((Prepare envC5 "bob" mkISC5 runnerC5 [⟨"proj", "t1"⟩]).1,
        Except.error (PrepError.tableNotFound ["t1"])) := rfl
  have hs := prepare_tableNotFound_state_amended envC5 "bob" mkISC5 runnerC5 _
    [⟨"proj", "t1"⟩] ["t1"] h
  exact ⟨congrArg Prod.snd h, hs.1, hs.2.1, hs.2.2.1⟩

theorem buildPartyMaps_parties (env : PrepEnv) :
    ∀ (ts : List TableMeta) (ps : List String) (p2t : List (String × List DbTable))
      (refs : List (DbTable × RefInfo)) (ps' : List String)
      (p2t' : List (String × List DbTable)) (refs' : List (DbTable × RefInfo)),
      buildPartyMaps env ts ps p2t refs = Except.ok (ps', p2t', refs') →
      ps' = ps ++ ts.map TableMeta.owner := by
  intro ts
  induction ts with
  | nil =>
    intro ps p2t refs ps' p2t' refs' h
    simp only [buildPartyMaps, Except.ok.injEq, Prod.mk.injEq] at h
    rw [List.map_nil, List.append_nil]
    exact h.1.symm
  | cons t ts ih =>
    intro ps p2t refs ps' p2t' refs' h
    simp only [buildPartyMaps] at h
    cases hpr : env.parseRef t.refTable with
    | error e =>
      rw [hpr] at h
      simp at h
    | ok ref =>
      rw [hpr] at h
      cases hpd : env.parseDBType t.dbType with
      | error e =>
        rw [hpd] at h
        simp at h
      | ok dbt =>
        rw [hpd] at h
        have hrec := ih (ps ++ [t.owner]) _ _ ps' p2t' refs' h
        rw [hrec, List.map_cons, List.append_assoc, List.singleton_append]

theorem prepareTail_ok (env : PrepEnv) (issuer : String) (names : List String)
    (r r' : Runner) (dp wp : List String)
    (h : prepareTail env issuer names r = (r', Except.ok (dp, wp))) :
    dp = sliceDeDup (r.tables.map TableMeta.owner) ∧ wp = sliceDeDup (dp ++ [issuer]) := by
  unfold prepareTail at h
  cases hb : buildPartyMaps env r.tables [] [] [] with
  | error e =>
    rw [hb] at h
    simp at h
  | ok v =>
    rcases v with ⟨parties, p2t, refs⟩
    rw [hb] at h
    dsimp only at h
    have hps : parties = r.tables.map TableMeta.owner := by
      simpa using buildPartyMaps_parties env r.tables [] [] [] parties p2t refs hb
    cases hp : env.getPartyInfo (sliceDeDup (sliceDeDup parties ++ [issuer])) with
    | error e =>
      rw [hp] at h
      simp at h
    | ok pinfo =>
      rw [hp] at h
      cases hc : env.listCCL names (sliceDeDup (sliceDeDup parties ++ [issuer])) with
      | error e =>
        rw [hc] at h
        simp at h
      | ok privs =>
        rw [hc] at h
        have h2 := congrArg Prod.snd h
        simp only [Except.ok.injEq, Prod.mk.injEq] at h2
        rcases h2 with ⟨hdp, hwp⟩
        subst hdp
        subst hwp
        exact ⟨by rw [hps], rfl⟩

theorem prepareData_ok (env : PrepEnv) (issuer : String) (names : List String)
    (r r' : Runner) (dp wp : List String)
    (h : prepareData env issuer names r = (r', Except.ok (dp, wp))) :
    dp = sliceDeDup (r'.tables.map TableMeta.owner) ∧ wp = sliceDeDup (dp ++ [issuer]) := by
  unfold prepareData at h
  cases hf1 : env.fetch1 names with
  | error e =>
    rw [hf1] at h
    simp at h
  | ok v =>
    rcases v with ⟨ts1, nf1⟩
    rw [hf1] at h
    dsimp only at h
    by_cases hcond : nf1 ≠ [] ∧ r.prepareAgain = false
    · rw [if_pos hcond] at h
      cases hm : env.getMembers with
      | error e =>
        rw [hm] at h
        simp at h
      | ok ms =>
        rw [hm] at h
        cases hf2 : env.fetch2 names with
        | error e =>
          rw [hf2] at h
          simp at h
        | ok v2 =>
          rcases v2 with ⟨ts2, nf2⟩
          rw [hf2] at h
          dsimp only at h
          by_cases hnf2 : nf2 ≠ []
          · rw [if_pos hnf2] at h
            simp at h
          · rw [if_neg hnf2] at h
            have htab : r'.tables = ts2 := by
              have hpt := prepareTail_tables env issuer names { r with tables := ts2 }
              rw [show (prepareTail env issuer names { r with tables := ts2 }).1 = r' from
                congrArg Prod.fst h] at hpt
              exact hpt
            have hok := prepareTail_ok env issuer names _ r' dp wp h
            refine ⟨?_, hok.2⟩
            rw [htab]
            exact hok.1
    · rw [if_neg hcond] at h
      have htab : r'.tables = ts1 := by
        have hpt := prepareTail_tables env issuer names { r with tables := ts1 }
        rw [show (prepareTail env issuer names { r with tables := ts1 }).1 = r' from
          congrArg Prod.fst h] at hpt
        exact hpt
      have hok := prepareTail_ok env issuer names _ r' dp wp h
      refine ⟨?_, hok.2⟩
      rw [htab]
      exact hok.1

theorem sliceDeDup_toFinset (l : List String) :
    (sliceDeDup l).toFinset = l.toFinset :=
  Finset.ext fun x => by simp [List.mem_toFinset, sliceDeDup_mem]

/-- C6: for every successful Prepare call, dataParties is the
deduplicated set of owners of the resolved tables, workParties is the
sorted deduplicated union of dataParties and the issuer, dataParties is
a subset of workParties, workParties contains the issuer, and the party
lists derived from the resolved tables do not depend on the order of
those tables. -/
theorem prepare_parties_spec (env : PrepEnv) (issuer : String)
    (mkIS : List TableMeta → Except String InfoSchema) (r r' : Runner)
    (usedTables : List DbTable) (dp wp : List String)
    (h : Prepare env issuer mkIS r usedTables = (r', Except.ok (dp, wp))) :
    dp = sliceDeDup (r'.tables.map TableMeta.owner) ∧
    wp = sliceDeDup (dp ++ [issuer]) ∧
    dp.toFinset = (r'.tables.map TableMeta.owner).toFinset ∧
    dp.Nodup ∧ wp.Nodup ∧ wp.Pairwise (fun a b => goStrLe a b = true) ∧
    dp ⊆ wp ∧ issuer ∈ wp ∧
    (∀ ts2 : List TableMeta, ts2.Perm r'.tables →
      sliceDeDup (ts2.map TableMeta.owner) = dp ∧
      sliceDeDup (sliceDeDup (ts2.map TableMeta.owner) ++ [issuer]) = wp) := by
  unfold Prepare at h
  dsimp only at h
  rcases hres : prepareData env issuer (List.map DbTable.tableName usedTables) r.clear
    with ⟨r2, res⟩
  rw [hres] at h
  cases res with
  | error e => simp at h
  | ok dw =>
    dsimp only at h
    cases hmk : mkIS r2.tables with
    | error e =>
      rw [hmk] at h
      simp at h
    | ok sch =>
      rw [hmk] at h
      have hr' : ({ r2 with is := some sch } : Runner) = r' := by
        simpa using congrArg Prod.fst h
      have hdw : dw = (dp, wp) := by simpa using congrArg Prod.snd h
      subst hdw
      have hpd := prepareData_ok env issuer _ r.clear r2 dp wp hres
      have htab : r'.tables = r2.tables := by rw [← hr']
      have h1 : dp = sliceDeDup (r'.tables.map TableMeta.owner) := by
        rw [htab]
        exact hpd.1
      have h2 : wp = sliceDeDup (dp ++ [issuer]) := hpd.2
      refine ⟨h1, h2, ?_, ?_, ?_, ?_, ?_, ?_, ?_⟩
      · rw [h1]
        exact sliceDeDup_toFinset _
      · rw [h1]
        exact sliceDeDup_nodup _
      · rw [h2]
        exact sliceDeDup_nodup _
      · rw [h2]
        exact sliceDeDup_sorted _
      · intro x hx
        rw [h2]
        exact (sliceDeDup_mem x _).mpr (List.mem_append_left _ hx)
      · rw [h2]
        exact (sliceDeDup_mem issuer _).mpr (List.mem_append_right _ (List.mem_singleton_self issuer))
      · intro ts2 hperm
        have hmap : (ts2.map TableMeta.owner).Perm (r'.tables.map TableMeta.owner) :=
          hperm.map TableMeta.owner
        have hdd : sliceDeDup (ts2.map TableMeta.owner) = dp := by
          rw [h1]
          exact sliceDeDup_perm_congr hmap
        exact ⟨hdd, by rw [hdd, ← h2]⟩

/-- A table owned by alice, for the C6 witness. -/
def tmA : TableMeta :=
  { projectID := "proj", tableName := "t1", owner := "alice"
  , refTable := "db.t1", dbType := "mysql", columns := [] }

/-- A table owned by bob, for the C6 witness. -/
def tmB : TableMeta :=
  { projectID := "proj", tableName := "t2", owner := "bob"
  , refTable := "db.t2", dbType := "mysql", columns := [] }

/-- Environment of the C6 witness: both tables resolve locally, owners
arriving in non-sorted order. -/
def envC6 : PrepEnv :=
  { fetch1 := fun _ => Except.ok ([tmB, tmA], [])
  , getMembers := Except.ok []
  , askPeers := Except.ok ()
  , fetch2 := fun _ => Except.ok ([], [])
  , parseRef := fun _ => Except.ok ⟨"db", "t"⟩
  , parseDBType := fun s => Except.ok s
  , getPartyInfo := fun ps => Except.ok ps
  , listCCL := fun _ _ => Except.ok [] }

/-- Info schema builder of the C6 witness. -/
def mkISC6 : List TableMeta → Except String InfoSchema := fun _ => Except.ok ⟨[]⟩

/-- Runner of the C6 witness. -/
def runnerC6 : Runner :=
  { info := none, is := none, ccls := [], tables := [], prepareAgain := false }

/-- Witness for C6: a concrete successful Prepare whose dataParties are
the sorted deduplicated owners and whose workParties add the issuer. -/
theorem prepare_parties_spec_witness :
    (Prepare envC6 "carol" mkISC6 runnerC6 [⟨"proj", "t1"⟩, ⟨"proj", "t2"⟩]).2 =
      Except.ok (["alice", "bob"], ["alice", "bob", "carol"]) ∧
    "carol" ∈ ["alice", "bob", "carol"] ∧
    ["alice", "bob"] ⊆ ["alice", "bob", "carol"] := by
  have h2 : (Prepare envC6 "carol" mkISC6 runnerC6 [⟨"proj", "t1"⟩, ⟨"proj", "t2"⟩]).2 =
      Except.ok (["alice", "bob"], ["alice", "bob", "carol"]) := rfl
  have h : Prepare envC6 "carol" mkISC6 runnerC6 [⟨"proj", "t1"⟩, ⟨"proj", "t2"⟩] =
      ((Prepare envC6 "carol" mkISC6 runnerC6 [⟨"proj", "t1"⟩, ⟨"proj", "t2"⟩]).1,
        Except.ok (["alice", "bob"], ["alice", "bob", "carol"])) :=
    Prod.ext_iff.mpr ⟨rfl, h2⟩
  have hs := prepare_parties_spec envC6 "carol" mkISC6 runnerC6 _
    [⟨"proj", "t1"⟩, ⟨"proj", "t2"⟩] ["alice", "bob"] ["alice", "bob", "carol"] h
  exact ⟨h2, hs.2.2.2.2.2.2.2.1, hs.2.2.2.2.2.2.1⟩

/-- One party entry of SessionStartParams, with its rank equal to its
position in the compiled plan's party list. -/
structure StartParty where
  code : String
  name : String
  rank : Int
  host : String
  publicKey : String
deriving DecidableEq

/-- pb.SessionStartParams as built by CreateExecutor. -/
structure SessionStartParams where
  partyCode : String
  sessionId : String
  spuRuntimeCfg : String
  parties : List StartParty
deriving DecidableEq

/-- pb.RunExecutionPlanRequest as built by CreateExecutor for this
party. -/
structure RunExecutionPlanRequest where
  sessionParams : SessionStartParams
  graph : String
  async : Bool
  debugOpts : String
deriving DecidableEq

/-- The executor value CreateExecutor assembles: the per-party request
map (a single entry keyed by the own party code) and the output column
names. -/
structure ExecutorModel where
  planReqs : List (String × RunExecutionPlanRequest)
  outputNames : List String
  jobId : String
deriving DecidableEq

/-- The compiled plan fields CreateExecutor reads: the party list, the
per-party subgraph map, the SPU runtime config and the result schema's
column names. -/
structure CompiledPlan where
  parties : List String
  subGraphs : List (String × String)
  spuRuntimeConf : String
  schemaColumns : List String
deriving DecidableEq

/-- The session fields CreateExecutor and the Execute dispatch read:
self party code, job id, whether this party is the issuer, the session's
async-mode flag, debug options, endpoint and public key lookups, and the
self engine endpoint. -/
structure SessionModel where
  selfParty : String
  jobId : String
  isIssuer : Bool
  asyncMode : Bool
  debugOpts : String
  endpoints : String → Except String String
  pubKeys : String → Except String String
  selfEndpoint : String

/-- The party loop of CreateExecutor: resolve endpoint and public key of
each plan party, failing fast, and assign rank by plan position. -/
def buildStartParties (sess : SessionModel) :
    List (Nat × String) → Except String (List StartParty)
  | [] => Except.ok []
  | (i, p) :: rest =>
    match sess.endpoints p with
    | Except.error e => Except.error e
    | Except.ok endpoint =>
      match sess.pubKeys p with
      | Except.error e => Except.error e
      | Except.ok key =>
        match buildStartParties sess rest with
        | Except.error e => Except.error e
        | Except.ok parties =>
          Except.ok ({ code := p, name := p, rank := Int.ofNat i
                     , host := endpoint, publicKey := key } :: parties)

/-- Go map lookup on the plan's subgraph map. -/
def lookupGraph : List (String × String) → String → Option String
  | [], _ => none
  | (p, g) :: rest, q => if p = q then some g else lookupGraph rest q

/-- QueryRunner.CreateExecutor: build the session start parameters with
ranked parties, locate the own subgraph (absence is fatal), build the
RunExecutionPlanRequest with Async hard-coded to false, fetch the own
public key for the engine stub, and populate output names from the plan
schema only when this party is the issuer. -/
def CreateExecutor (sess : SessionModel) (plan : CompiledPlan) :
    Except String ExecutorModel :=
  match buildStartParties sess plan.parties.enum with
  | Except.error e => Except.error e
  | Except.ok parties =>
    let startParams : SessionStartParams :=
      { partyCode := sess.selfParty, sessionId := sess.jobId
      , spuRuntimeCfg := plan.spuRuntimeConf, parties := parties }
    match lookupGraph plan.subGraphs sess.selfParty with
    | none => Except.error "could not find my graph"
    | some g =>
      let req : RunExecutionPlanRequest :=
        { sessionParams := startParams, graph := g, async := false
        , debugOpts := sess.debugOpts }
      match sess.pubKeys sess.selfParty with
      | Except.error e => Except.error e
      | Except.ok _myKey =>
        let outputNames := if sess.isIssuer then plan.schemaColumns else []
        Except.ok { planReqs := [(sess.selfParty, req)]
                  , outputNames := outputNames, jobId := sess.jobId }

/-- C7: for every compiled plan accepted by CreateExecutor, the output
name list is populated from the plan's schema columns exactly when this
party is the issuer, and is empty otherwise. -/
theorem createExecutor_outputNames (sess : SessionModel) (plan : CompiledPlan)
    (ex : ExecutorModel) (h : CreateExecutor sess plan = Except.ok ex) :
    (sess.isIssuer = true → ex.outputNames = plan.schemaColumns) ∧
    (sess.isIssuer = false → ex.outputNames = []) := by
  unfold CreateExecutor at h
  cases hb : buildStartParties sess plan.parties.enum with
  | error e =>
    rw [hb] at h
    simp at h
  | ok parties =>
    rw [hb] at h
    dsimp only at h
    cases hg : lookupGraph plan.subGraphs sess.selfParty with
    | none =>
      rw [hg] at h
      simp at h
    | some g =>
      rw [hg] at h
      dsimp only at h
      cases hk : sess.pubKeys sess.selfParty with
      | error e =>
        rw [hk] at h
        simp at h
      | ok myKey =>
        rw [hk] at h
        simp only [Except.ok.injEq] at h
        subst h
        constructor
        · intro hiss
          simp [hiss]
        · intro hiss
          simp [hiss]

/-- Issuer session of the C7 witness. -/
def sessC7 : SessionModel :=
  { selfParty := "alice", jobId := "job1", isIssuer := true, asyncMode := false
  , debugOpts := "", endpoints := fun _ => Except.ok "ep"
  , pubKeys := fun _ => Except.ok "pk", selfEndpoint := "self" }

/-- Non-issuer variant of the C7 witness session. -/
def sessC7n : SessionModel := { sessC7 with isIssuer := false }

/-- Compiled plan of the C7 witness. -/
def planC7 : CompiledPlan :=
  { parties := ["alice", "bob"], subGraphs := [("alice", "g1"), ("bob", "g2")]
  , spuRuntimeConf := "spu", schemaColumns := ["col1", "col2"] }

/-- The executor CreateExecutor builds for the issuer session of the C7
witness. -/
def exC7 : ExecutorModel :=
  { planReqs := [("alice",
      { sessionParams :=
          { partyCode := "alice", sessionId := "job1", spuRuntimeCfg := "spu"
          , parties := [⟨"alice", "alice", 0, "ep", "pk"⟩, ⟨"bob", "bob", 1, "ep", "pk"⟩] }
      , graph := "g1", async := false, debugOpts := "" })]
  , outputNames := ["col1", "col2"], jobId := "job1" }

/-- The executor CreateExecutor builds for the non-issuer session of the
C7 witness: same request, empty output names. -/
def exC7n : ExecutorModel := { exC7 with outputNames := [] }

/-- Witness for C7: the issuer gets the plan schema columns as output
names, the non-issuer gets none. -/
theorem createExecutor_outputNames_witness :
    sessC7.isIssuer = true ∧ exC7.outputNames = planC7.schemaColumns ∧
    sessC7n.isIssuer = false ∧ exC7n.outputNames = [] :=
  ⟨rfl,
   (createExecutor_outputNames sessC7 planC7 exC7 rfl).1 rfl,
   rfl,
   (createExecutor_outputNames sessC7n planC7 exC7n rfl).2 rfl⟩

theorem buildStartParties_asyncMode (sess : SessionModel) (b : Bool) :
    ∀ l, buildStartParties { sess with asyncMode := b } l = buildStartParties sess l
  | [] => rfl
  | (i, p) :: rest => by
    simp only [buildStartParties]
    rw [buildStartParties_asyncMode sess b rest]

/-- C10: the RunExecutionPlanRequest CreateExecutor builds for this
party always carries Async equal to false; the whole construction is
independent of the session's async-mode flag, which only feeds the later
RunExecutionPlan call of Execute. -/
theorem createExecutor_async_false :
    (∀ (sess : SessionModel) (plan : CompiledPlan) (b : Bool),
      CreateExecutor { sess with asyncMode := b } plan = CreateExecutor sess plan) ∧
    (∀ (sess : SessionModel) (plan : CompiledPlan) (ex : ExecutorModel)
        (p : String) (req : RunExecutionPlanRequest),
      CreateExecutor sess plan = Except.ok ex → (p, req) ∈ ex.planReqs →
      req.async = false) := by
  constructor
  · intro sess plan b
    unfold CreateExecutor
    rw [buildStartParties_asyncMode sess b plan.parties.enum]
  · intro sess plan ex p req h hmem
    unfold CreateExecutor at h
    cases hb : buildStartParties sess plan.parties.enum with
    | error e =>
      rw [hb] at h
      simp at h
    | ok parties =>
      rw [hb] at h
      dsimp only at h
      cases hg : lookupGraph plan.subGraphs sess.selfParty with
      | none =>
        rw [hg] at h
        simp at h
      | some g =>
        rw [hg] at h
        dsimp only at h
        cases hk : sess.pubKeys sess.selfParty with
        | error e =>
          rw [hk] at h
          simp at h
        | ok myKey =>
          rw [hk] at h
          simp only [Except.ok.injEq] at h
          subst h
          simp only [List.mem_singleton, Prod.mk.injEq] at hmem
          rw [hmem.2]

/-- Session of the C10 witness: a non-issuer with async mode enabled. -/
def sessC10 : SessionModel :=
  { selfParty := "alice", jobId := "j2", isIssuer := false, asyncMode := false
  , debugOpts := "dbg", endpoints := fun _ => Except.ok "epA"
  , pubKeys := fun _ => Except.ok "pkA", selfEndpoint := "selfA" }

/-- Compiled plan of the C10 witness. -/
def planC10 : CompiledPlan :=
  { parties := ["alice"], subGraphs := [("alice", "gA")]
  , spuRuntimeConf := "spu2", schemaColumns := ["c"] }

/-- The request CreateExecutor builds in the C10 witness. -/
def reqC10 : RunExecutionPlanRequest :=
  { sessionParams :=
      { partyCode := "alice", sessionId := "j2", spuRuntimeCfg := "spu2"
      , parties := [⟨"alice", "alice", 0, "epA", "pkA"⟩] }
  , graph := "gA", async := false, debugOpts := "dbg" }

/-- The executor CreateExecutor builds in the C10 witness. -/
def exC10 : ExecutorModel :=
  { planReqs := [("alice", reqC10)], outputNames := [], jobId := "j2" }

/-- Witness for C10: flipping the async-mode flag leaves the built
executor unchanged, and the concrete request carries Async false. -/
theorem createExecutor_async_false_witness :
    CreateExecutor { sessC10 with asyncMode := true } planC10 =
      CreateExecutor sessC10 planC10 ∧
    reqC10.async = false :=
  ⟨createExecutor_async_false.1 sessC10 planC10 true,
   createExecutor_async_false.2 sessC10 planC10 exC10 "alice" reqC10 rfl
     (List.mem_singleton_self ("alice", reqC10))⟩

/-- What a loop body does to its enclosing for loop: fall through or
continue to the next tick, or leave the loop (which for these daemon
loops would mean the function returns). -/
inductive LoopCtl where
  | next
  | exitLoop
deriving DecidableEq

/-- How StorageGc starts: the initial InitGcLockIfNecessary check either
fails, upon which the function returns before entering the ticker loop,
or succeeds and the loop is entered. -/
inductive StorageGcEntry where
  | returnedBeforeLoop
  | entersLoop
deriving DecidableEq

/-- The prologue of App.StorageGc: a failed lock-table check logs and
returns; otherwise the ticker loop is entered. -/
def storageGcStart (initLock : Except String Unit) : StorageGcEntry :=
  match initLock with
  | Except.error _ => StorageGcEntry.returnedBeforeLoop
  | Except.ok _ => StorageGcEntry.entersLoop

/-- One tick of the StorageGc loop: a failed HoldGcLock continues to the
next tick; a failed ClearExpiredResults is logged and falls through to
the next tick; success falls through as well.  No path leaves the
loop. -/
def storageGcTickBody (holdLock : Except String Unit)
    (clearExpired : Except String Unit) : LoopCtl :=
  match holdLock with
  | Except.error _ => LoopCtl.next
  | Except.ok _ =>
    match clearExpired with
    | Except.error _ => LoopCtl.next
    | Except.ok _ => LoopCtl.next

/-- Running n ticks of the StorageGc loop against an arbitrary sequence
of metadata-layer outcomes; true means the loop is still running. -/
def storageGcTicks (envs : Nat → Except String Unit × Except String Unit) : Nat → Bool
  | 0 => true
  | n + 1 =>
    match storageGcTicks envs n with
    | false => false
    | true =>
      match storageGcTickBody (envs n).1 (envs n).2 with
      | LoopCtl.next => true
      | LoopCtl.exitLoop => false

/-- The in-memory session registry, id to session payload. -/
def Registry : Type := List (String × Nat)

/-- Modelled from the spec: App.DeleteSession is not among the analysed
sources; the spec describes session GC teardown as deleting the
session's in-memory state from the registry.  Deletion of an absent id
is a no-op. -/
def deleteSession (reg : Registry) (id : String) : Registry :=
  List.filter (fun kv => decide (kv.1 ≠ id)) reg

/-- One tick of the SessionGc loop: snapshot the registry's ids, ask the
metadata layer which are canceled (a failure is logged and the tick
skipped), and delete every canceled session.  No path leaves the
loop. -/
def sessionGcTickBody (reg : Registry)
    (check : List String → Except String (List String)) : LoopCtl × Registry :=
  let ids := List.map Prod.fst reg
  match check ids with
  | Except.error _ => (LoopCtl.next, reg)
  | Except.ok canceledIds => (LoopCtl.next, canceledIds.foldl deleteSession reg)

/-- Running n ticks of the SessionGc loop; the Bool is true while the
loop is still running. -/
def sessionGcTicks (checks : Nat → List String → Except String (List String))
    (reg : Registry) : Nat → Bool × Registry
  | 0 => (true, reg)
  | n + 1 =>
    match sessionGcTicks checks reg n with
    | (false, r) => (false, r)
    | (true, r) =>
      match sessionGcTickBody r (checks n) with
      | (LoopCtl.next, r2) => (true, r2)
      | (LoopCtl.exitLoop, r2) => (false, r2)

theorem storageGcTickBody_next (holdLock clearExpired : Except String Unit) :
    storageGcTickBody holdLock clearExpired = LoopCtl.next := by
  unfold storageGcTickBody
  cases holdLock with
  | error e => rfl
  | ok u =>
    cases clearExpired with
    | error e => rfl
    | ok u2 => rfl

theorem sessionGcTickBody_next (reg : Registry)
    (check : List String → Except String (List String)) :
    (sessionGcTickBody reg check).1 = LoopCtl.next := by
  unfold sessionGcTickBody
  dsimp only
  cases hc : check (List.map Prod.fst reg) with
  | error e => simp [hc]
  | ok canceledIds => simp [hc]

/-- C8 (amended): SessionGc never leaves its loop on its own, and once
StorageGc's ticker loop is entered it also never leaves, whatever
sequence of results the metadata layer produces; but StorageGc does
return on its own, before entering the loop, when the initial
InitGcLockIfNecessary check fails. -/
theorem gc_loops_run_forever :
    (∀ (envs : Nat → Except String Unit × Except String Unit) (n : Nat),
      storageGcTicks envs n = true) ∧
    (∀ (checks : Nat → List String → Except String (List String))
        (reg : Registry) (n : Nat),
      (sessionGcTicks checks reg n).1 = true) ∧
    (∀ initLock : Except String Unit, initLock = Except.ok () →
      storageGcStart initLock = StorageGcEntry.entersLoop) ∧
    (∀ e : String, storageGcStart (Except.error e) = StorageGcEntry.returnedBeforeLoop) := by
  refine ⟨?_, ?_, ?_, ?_⟩
  · intro envs n
    induction n with
    | zero => rfl
    | succ n ih =>
      unfold storageGcTicks
      rw [ih, storageGcTickBody_next]
  · intro checks reg n
    induction n with
    | zero => rfl
    | succ n ih =>
      unfold sessionGcTicks
      rcases hrec : sessionGcTicks checks reg n with ⟨alive, r⟩
      rw [hrec] at ih
      dsimp only at ih
      subst ih
      dsimp only
      rcases hb : sessionGcTickBody r (checks n) with ⟨ctl, r2⟩
      have hn := sessionGcTickBody_next r (checks n)
      rw [hb] at hn
      dsimp only at hn
      subst hn
      rfl
  · intro initLock h
    subst h
    rfl
  · intro e
    rfl

/-- C8 counterexample: when the initial GC-lock check errors, StorageGc
returns on its own, before any tick runs. -/
theorem storageGc_init_error_counterexample :
    storageGcStart (Except.error "db error") = StorageGcEntry.returnedBeforeLoop ∧
    StorageGcEntry.returnedBeforeLoop ≠ StorageGcEntry.entersLoop := by
  exact ⟨rfl, by decide⟩

/-- Witness for the amended C8: three ticks of both loops under failing
collaborators keep running, and a successful init enters the loop. -/
theorem gc_loops_run_forever_witness :
    storageGcTicks (fun _ => (Except.error "lock", Except.error "scan")) 3 = true ∧
    (sessionGcTicks (fun _ _ => Except.error "check") [("s1", 1)] 3).1 = true ∧
    storageGcStart (Except.ok ()) = StorageGcEntry.entersLoop :=
  ⟨gc_loops_run_forever.1 (fun _ => (Except.error "lock", Except.error "scan")) 3,
   gc_loops_run_forever.2.1 (fun _ _ => Except.error "check") [("s1", 1)] 3,
   gc_loops_run_forever.2.2.1 (Except.ok ()) rfl⟩

/-- Lookup of a session id in the registry, first match wins. -/
def lookupReg : Registry → String → Option Nat
  | [], _ => none
  | kv :: rest, id => if kv.1 = id then some kv.2 else lookupReg rest id

theorem foldl_deleteSession (cs : List String) :
    ∀ reg : Registry, cs.foldl deleteSession reg =
      List.filter (fun kv => decide (kv.1 ∉ cs)) reg := by
  induction cs with
  | nil =>
    intro reg
    simp
  | cons c cs ih =>
    intro reg
    rw [List.foldl_cons, ih (deleteSession reg c)]
    unfold deleteSession
    rw [List.filter_filter]
    refine List.filter_congr ?_
    intro kv _
    by_cases h1 : kv.1 = c <;> by_cases h2 : kv.1 ∈ cs <;> simp [h1, h2]

theorem lookupReg_filter_notMem (canceled : List String) :
    ∀ (reg : Registry) (id : String),
      lookupReg (List.filter (fun kv => decide (kv.1 ∉ canceled)) reg) id =
        if id ∈ canceled then none else lookupReg reg id := by
  intro reg
  induction reg with
  | nil =>
    intro id
    by_cases h : id ∈ canceled <;> simp [lookupReg, h]
  | cons kv rest ih =>
    intro id
    have ih' := ih id
    simp only [decide_not] at ih'
    by_cases hkv : kv.1 ∈ canceled
    · by_cases hid : id ∈ canceled
      · simp [List.filter_cons, lookupReg, hkv, hid, ih']
      · have hne : kv.1 ≠ id := by
          intro he
          rw [he] at hkv
          exact hid hkv
        simp [List.filter_cons, lookupReg, hkv, hid, hne, ih']
    · by_cases hid : id ∈ canceled
      · have hne : kv.1 ≠ id := by
          intro he
          rw [he] at hkv
          exact hkv hid
        simp [List.filter_cons, lookupReg, hkv, hid, hne, ih']
      · by_cases heq : kv.1 = id
        · simp [List.filter_cons, lookupReg, hkv, hid, heq]
        · simp [List.filter_cons, lookupReg, hkv, hid, heq, ih']

/-- C9: on a SessionGc tick whose cancellation lookup succeeds on the
tick's snapshot, the sessions removed from the registry are exactly
those reported canceled: a reported id no longer resolves after the
tick, and every other id resolves to exactly what it did before. -/
theorem sessionGc_deletes_exactly_canceled (reg : Registry)
    (check : List String → Except String (List String)) (canceled : List String)
    (hc : check (List.map Prod.fst reg) = Except.ok canceled) :
    ∀ id : String, lookupReg (sessionGcTickBody reg check).2 id =
      if id ∈ canceled then none else lookupReg reg id := by
  intro id
  unfold sessionGcTickBody
  dsimp only
  rw [hc]
  dsimp only
  rw [foldl_deleteSession]
  exact lookupReg_filter_notMem canceled reg id

/-- Registry of the C9 witness. -/
def regC9 : Registry := [("s1", 1), ("s2", 2)]

/-- Cancellation lookup of the C9 witness: reports only s2 canceled. -/
def checkC9 : List String → Except String (List String) := fun _ => Except.ok ["s2"]

/-- Witness for C9: after the tick, the reported session s2 is gone and
the unreported session s1 is untouched. -/
theorem sessionGc_deletes_exactly_canceled_witness :
    checkC9 ["s1", "s2"] = Except.ok ["s2"] ∧
    lookupReg (sessionGcTickBody regC9 checkC9).2 "s2" = none ∧
    lookupReg (sessionGcTickBody regC9 checkC9).2 "s1" = some 1 := by
  have h2 := sessionGc_deletes_exactly_canceled regC9 checkC9 ["s2"] rfl "s2"
  have h1 := sessionGc_deletes_exactly_canceled regC9 checkC9 ["s2"] rfl "s1"
  refine ⟨rfl, ?_, ?_⟩
  · rw [h2]
    decide
  · rw [h1]
    decide

end Scql
